import Mathlib

/-!
Shallow embedding of the core audio pipeline of the audio_quality_checker
repository (src/unnamed/part_000, second iteration of the component):

* `calculateQualityScore` — the Quality Scoring Engine (lines 319–365);
* `processAudio` / `processChannel` / `trimGo` — the transform pipeline
  (lines 367–472), covering the filter-speech branch and the trim-pauses
  loop;
* `bufferToWav` — the WAV container encoder (lines 474–509).

JavaScript numbers are modelled as rationals (`ℚ`); the integer values
produced by `Math.round` and `DataView.setInt16` are modelled as `ℤ` with
the exact JS truncation/wrap-around semantics made explicit.
-/

/-- A decoded linear sample buffer: one list of float samples per channel,
plus the sample rate.  Mirrors the `AudioBuffer` objects used by the code. -/
structure AudioBuffer where
  sampleRate : ℕ
  channels : List (List ℚ)
  deriving Repr, DecidableEq

/-- `AudioBuffer.numberOfChannels` of the Web Audio API. -/
def AudioBuffer.numberOfChannels (b : AudioBuffer) : ℕ := b.channels.length

/-- `AudioBuffer.length` (the frame count) of the Web Audio API.  All
channels of a real `AudioBuffer` have this common length; we read it off
channel 0. -/
def AudioBuffer.frameCount (b : AudioBuffer) : ℕ := (b.channels.headD []).length

/-- Every channel holds `frameCount` samples — the invariant the Web Audio
API guarantees for decoded buffers. -/
def AudioBuffer.WellFormed (b : AudioBuffer) : Prop :=
  ∀ ch ∈ b.channels, ch.length = b.frameCount

/-- The two transform switches handed to `processAudio`. -/
structure TransformConfig where
  filterSpeech : Bool
  trimPauses : Bool
  deriving Repr, DecidableEq

/-- The Quality Scoring Engine, `calculateQualityScore(audioBuffer, bitrate)`
(source lines 319–365).  `sampleRate` and `bitrate` are the two numeric
inputs; `channels` is `audioBuffer.numberOfChannels`.  The code accumulates
three sub-scores into a float `score` and returns
`Math.min(maxScore, Math.round(score))`; `Math.round x = ⌊x + 1/2⌋`, which
is Mathlib's `round` on `ℚ`. -/
def calculateQualityScore (sampleRate bitrate : ℚ) (channels : ℕ) : ℤ :=
  let minFreq : ℚ := 250
  let maxFreq : ℚ := 4000
  let freqScore : ℚ :=
    if minFreq * 2 ≤ sampleRate ∧ sampleRate ≤ maxFreq * 2 then 50
    else if sampleRate < minFreq * 2 then sampleRate / (minFreq * 2) * 50
    else maxFreq * 2 / sampleRate * 50
  let bitrateScore : ℚ :=
    if 128 ≤ bitrate ∧ bitrate ≤ 320 then 30
    else if bitrate < 128 then bitrate / 128 * 30
    else 320 / bitrate * 30
  let channelsScore : ℚ :=
    if channels = 2 then 20 else if channels = 1 then 10 else 0
  min 100 (round (freqScore + bitrateScore + channelsScore))

/-- The scoring formula exactly as the spec words it (§4.1 / claim C3):
`round(min(100, F + B + C))` with the three sub-score formulas written the
spec's way.  Used only to compare against `calculateQualityScore`. -/
def specQualityScore (sampleRate bitrate : ℚ) (channels : ℕ) : ℤ :=
  let F : ℚ :=
    if 500 ≤ sampleRate ∧ sampleRate ≤ 8000 then 50
    else if sampleRate < 500 then 50 * sampleRate / 500
    else 50 * 8000 / sampleRate
  let B : ℚ :=
    if 128 ≤ bitrate ∧ bitrate ≤ 320 then 30
    else if bitrate < 128 then 30 * bitrate / 128
    else 30 * 320 / bitrate
  let C : ℚ :=
    if channels = 2 then 20 else if channels = 1 then 10 else 0
  round (min 100 (F + B + C))

/-! ## The transform pipeline of `processAudio` (source lines 367–472)

`processAudio` creates `processedBuffer` with
`audioContext.createBuffer(numberOfChannels, length, sampleRate)` — a
zero-initialised buffer of the same dimensions — and then runs, per
channel, the optional filter-speech branch followed by the optional
trim-pauses loop, both writing into `outputData`
(= `processedBuffer.getChannelData(channel)`). -/

/-- The offline render inside the filter-speech branch (lines 405–414):
the offline graph is `bufferSource → destination` with no filter node, so
rendering reproduces the decoded samples unchanged. -/
def offlineRender (inputData : List ℚ) : List ℚ := inputData

/-- The filter-speech branch (lines 392–416).  It configures a biquad
band-pass node in the realtime context (connected to
`audioContext.destination`, never started), renders the original buffer
offline without any filter, and then executes
`renderedBuffer.copyToChannel(renderedBuffer.getChannelData(channel), channel)`
— copying the rendered buffer onto itself.  `outputData` is never written,
so the branch returns it unchanged. -/
def filterSpeechBranch (inputData outputData : List ℚ) : List ℚ :=
  let renderedChannel := offlineRender inputData
  let _ := renderedChannel
  outputData

/-- `outputData[j] = 0` for `j = lo, lo+1, …, lo+n-1`: the inner loop
`for (let j = pauseStart; j < i; j++) outputData[j] = 0;` (lines 433–435)
with `lo = pauseStart` and `n = i - pauseStart`. -/
def zeroRange (outputData : List ℚ) (lo : ℕ) : ℕ → List ℚ
  | 0 => outputData
  | n + 1 => zeroRange (outputData.set lo 0) (lo + 1) n

/-- The body of the trim-pauses scan (lines 424–440), one step per
remaining input frame.  `i` is the loop index, `isPause`/`pauseStart` the
scan state, `outputData` the output channel being written.  A frame is
silent when `|inputData[i]| < 0.01`; a closing run is flushed to zero when
`i - pauseStart > sampleRate * 0.5`. -/
def trimGo (sampleRate : ℕ) (rest : List ℚ) (i : ℕ) (isPause : Bool)
    (pauseStart : ℕ) (outputData : List ℚ) : List ℚ :=
  match rest with
  | [] => outputData
  | x :: xs =>
    if |x| < 1 / 100 then
      if isPause then trimGo sampleRate xs (i + 1) true pauseStart outputData
      else trimGo sampleRate xs (i + 1) true i outputData
    else
      let outputData1 :=
        if isPause ∧ ((i : ℚ) - (pauseStart : ℚ) > (sampleRate : ℚ) * (1 / 2))
        then zeroRange outputData pauseStart (i - pauseStart)
        else outputData
      trimGo sampleRate xs (i + 1) false pauseStart (outputData1.set i x)

/-- One channel of `processAudio`'s loop (lines 387–442): a fresh
zero-initialised output channel, then the filter-speech branch, then the
trim-pauses loop. -/
def processChannel (config : TransformConfig) (sampleRate : ℕ)
    (inputData : List ℚ) : List ℚ :=
  let outputData := List.replicate inputData.length (0 : ℚ)
  let outputData :=
    if config.filterSpeech then filterSpeechBranch inputData outputData
    else outputData
  if config.trimPauses then trimGo sampleRate inputData 0 false 0 outputData
  else outputData

/-- The buffer-level transform of `processAudio`: the processed buffer has
the same channel count, frame count and sample rate (line 380–384), and
each channel is produced by `processChannel`. -/
def processAudio (config : TransformConfig) (audioBuffer : AudioBuffer) :
    AudioBuffer :=
  { sampleRate := audioBuffer.sampleRate
    channels := audioBuffer.channels.map
      (processChannel config audioBuffer.sampleRate) }

/-! ## The WAV container encoder `bufferToWav` (source lines 474–509)

The code allocates a zero-filled `ArrayBuffer` of `44 + length * blockAlign`
bytes, writes the 44-byte header, and writes channel 0's samples as
little-endian signed 16-bit integers at offsets `44 + 2*i`; every other
byte keeps its zero initialisation.  We model the byte array as a
`List ℕ` of byte values. -/

/-- JavaScript's `ToIntegerOrInfinity` on a finite number: truncation
toward zero.  Applied by `DataView.setInt16` to `sample * 0x7FFF`. -/
def jsTrunc (q : ℚ) : ℤ := if 0 ≤ q then ⌊q⌋ else ⌈q⌉

/-- The two little-endian bytes stored by `DataView.setUint16(…, n, true)`:
the value is wrapped modulo 2^16, then split into low and high byte. -/
def uint16Bytes (n : ℕ) : List ℕ :=
  [n % 65536 % 256, n % 65536 / 256]

/-- The four little-endian bytes stored by `DataView.setUint32(…, n, true)`. -/
def uint32Bytes (n : ℕ) : List ℕ :=
  [n % 4294967296 % 256, n % 4294967296 / 256 % 256,
   n % 4294967296 / 65536 % 256, n % 4294967296 / 16777216]

/-- The two little-endian bytes stored by `DataView.setInt16(…, v, true)`:
two's-complement wrap modulo 2^16, low byte first. -/
def int16Bytes (v : ℤ) : List ℕ :=
  uint16Bytes (v % 65536).toNat

/-- One encoded sample (lines 504–505): clamp to [-1, 1] with
`Math.max(-1, Math.min(1, x))`, scale by `0x7FFF = 32767`, store as a
little-endian int16. -/
def sampleToBytes (x : ℚ) : List ℕ :=
  int16Bytes (jsTrunc (max (-1) (min 1 x) * 32767))

/-- The 44-byte header written by lines 486–498; ASCII strings are the
byte values written by `writeString`. -/
def wavHeader (numChannels sampleRate frameCount : ℕ) : List ℕ :=
  let blockAlign := numChannels * 2
  [82, 73, 70, 70] ++ (uint32Bytes (36 + frameCount * blockAlign) ++
  ([87, 65, 86, 69] ++ ([102, 109, 116, 32] ++
  (uint32Bytes 16 ++ (uint16Bytes 1 ++ (uint16Bytes numChannels ++
  (uint32Bytes sampleRate ++ (uint32Bytes (sampleRate * blockAlign) ++
  (uint16Bytes blockAlign ++ (uint16Bytes 16 ++
  ([100, 97, 116, 97] ++ uint32Bytes (frameCount * blockAlign))))))))))))

/-- `bufferToWav` (lines 474–509): header, then channel 0's samples two
bytes per frame at offsets `44 + 2*i`, then the untouched zero bytes of
the rest of the `44 + frameCount * blockAlign`-byte allocation. -/
def bufferToWav (buffer : AudioBuffer) : List ℕ :=
  let numChannels := buffer.numberOfChannels
  let blockAlign := numChannels * 2
  let channelData := buffer.channels.headD []
  wavHeader numChannels buffer.sampleRate buffer.frameCount ++
  ((channelData.map sampleToBytes).flatten ++
  List.replicate (buffer.frameCount * blockAlign - 2 * channelData.length) 0)

/-- Little-endian 16-bit read-back at byte offset `off`. -/
def readUint16LE (bytes : List ℕ) (off : ℕ) : ℕ :=
  bytes.getD off 0 + 256 * bytes.getD (off + 1) 0

/-- Little-endian 32-bit read-back at byte offset `off`. -/
def readUint32LE (bytes : List ℕ) (off : ℕ) : ℕ :=
  bytes.getD off 0 + 256 * bytes.getD (off + 1) 0 +
  65536 * bytes.getD (off + 2) 0 + 16777216 * bytes.getD (off + 3) 0

/-! ## List index helpers -/

/-- `getD` after `List.set` at the written index, default 0: in bounds the
written value, out of bounds the default. -/
theorem getD_set_self (l : List ℚ) (i : ℕ) (a : ℚ) (h : i < l.length) :
    (l.set i a).getD i 0 = a := by
  induction l generalizing i with
  | nil => simp at h
  | cons x xs ih =>
    cases i with
    | zero => simp
    | succ n => simpa using ih n (by simpa using h)

/-- `getD` after `List.set` at a different index is unchanged. -/
theorem getD_set_ne (l : List ℚ) (i j : ℕ) (a : ℚ) (h : i ≠ j) :
    (l.set i a).getD j 0 = l.getD j 0 := by
  induction l generalizing i j with
  | nil => simp
  | cons x xs ih =>
    cases i with
    | zero => cases j with
      | zero => exact absurd rfl h
      | succ m => simp
    | succ n => cases j with
      | zero => simp
      | succ m => simpa using ih n m (fun hnm => h (by rw [hnm]))

/-- Setting an index to 0 makes `getD … 0` there 0, in or out of bounds. -/
theorem getD_set_zero (l : List ℚ) (i : ℕ) : (l.set i 0).getD i 0 = 0 := by
  by_cases h : i < l.length
  · exact getD_set_self l i 0 h
  · rw [List.set_eq_of_length_le (by omega)]
    exact List.getD_eq_default _ _ (by omega)

/-- `getD … 0` of a zero-filled channel is 0 everywhere. -/
theorem getD_replicate_zero (n j : ℕ) :
    (List.replicate n (0 : ℚ)).getD j 0 = 0 := by
  induction n generalizing j with
  | zero => simp
  | succ m ih =>
    cases j with
    | zero => simp [List.replicate]
    | succ k => simp [List.replicate, ih k]

/-- `zeroRange` preserves the channel length. -/
theorem zeroRange_length (outputData : List ℚ) (lo n : ℕ) :
    (zeroRange outputData lo n).length = outputData.length := by
  induction n generalizing outputData lo with
  | zero => rfl
  | succ m ih => simpa [zeroRange] using ih (outputData.set lo 0) (lo + 1)

/-- Pointwise effect of the flush loop: indices in `[lo, lo+n)` read 0,
all others are unchanged. -/
theorem zeroRange_getD (outputData : List ℚ) (lo n j : ℕ) :
    (zeroRange outputData lo n).getD j 0 =
      if lo ≤ j ∧ j < lo + n then 0 else outputData.getD j 0 := by
  induction n generalizing outputData lo with
  | zero =>
    simp only [zeroRange]
    rw [if_neg (by omega)]
  | succ m ih =>
    simp only [zeroRange]
    rw [ih]
    by_cases hj : j = lo
    · subst hj
      rw [if_neg (by omega), if_pos (by omega)]
      exact getD_set_zero outputData j
    · by_cases hr : lo + 1 ≤ j ∧ j < lo + 1 + m
      · rw [if_pos hr, if_pos (by omega)]
      · rw [if_neg hr, if_neg (by omega), getD_set_ne _ _ _ _ (fun h => hj h.symm)]

/-- The trim-pauses scan preserves the output channel's length. -/
theorem trimGo_length (sampleRate : ℕ) (rest : List ℚ) :
    ∀ (i pauseStart : ℕ) (isPause : Bool) (outputData : List ℚ),
    (trimGo sampleRate rest i isPause pauseStart outputData).length =
      outputData.length := by
  induction rest with
  | nil => intro i ps p out; rfl
  | cons x xs ih =>
    intro i ps p out
    by_cases hx : |x| < 1 / 100
    · cases p
      · simp only [trimGo, if_pos hx, Bool.false_eq_true, if_false]
        exact ih _ _ _ _
      · simp only [trimGo, if_pos hx, if_pos rfl]
        exact ih _ _ _ _
    · simp only [trimGo, if_neg hx]
      rw [ih]
      simp only [List.length_set]
      split
      · exact zeroRange_length _ _ _
      · rfl

/-- Pointwise characterisation of the trim-pauses scan, for any suffix of
the input.  Starting from an output channel that is 0 from index `i` on
(and 0 on the currently open silent run), the scan writes each non-silent
frame through and leaves every silent frame at 0. -/
theorem trimGo_getD (sampleRate : ℕ) (rest : List ℚ) :
    ∀ (i pauseStart : ℕ) (isPause : Bool) (outputData : List ℚ),
    (∀ k, i ≤ k → outputData.getD k 0 = 0) →
    (isPause = true → ∀ k, pauseStart ≤ k → k < i → outputData.getD k 0 = 0) →
    i + rest.length ≤ outputData.length →
    ∀ j, (trimGo sampleRate rest i isPause pauseStart outputData).getD j 0 =
      if i ≤ j ∧ j - i < rest.length then
        (if |rest.getD (j - i) 0| < 1 / 100 then 0 else rest.getD (j - i) 0)
      else outputData.getD j 0 := by
  induction rest with
  | nil =>
    intro i ps p out H0 Hrun Hlen j
    simp only [trimGo, List.length_nil]
    rw [if_neg (by omega)]
  | cons x xs ih =>
    intro i ps p out H0 Hrun Hlen j
    simp only [List.length_cons] at Hlen ⊢
    by_cases hx : |x| < 1 / 100
    · -- silent frame: nothing is written, the run opens or grows
      have step : ∀ ps2 : ℕ,
          ((true : Bool) = true → ∀ k, ps2 ≤ k → k < i + 1 → out.getD k 0 = 0) →
          ∀ j2, (trimGo sampleRate xs (i + 1) true ps2 out).getD j2 0 =
            if i ≤ j2 ∧ j2 - i < xs.length + 1 then
              (if |(x :: xs).getD (j2 - i) 0| < 1 / 100 then 0
               else (x :: xs).getD (j2 - i) 0)
            else out.getD j2 0 := by
        intro ps2 Hrun2 j2
        rw [ih (i + 1) ps2 true out (fun k hk => H0 k (by omega)) Hrun2
          (by omega) j2]
        by_cases hj1 : j2 < i
        · rw [if_neg (show ¬(i + 1 ≤ j2 ∧ j2 - (i + 1) < xs.length) by omega),
            if_neg (show ¬(i ≤ j2 ∧ j2 - i < xs.length + 1) by omega)]
        · by_cases hj2 : j2 = i
          · rw [if_neg (show ¬(i + 1 ≤ j2 ∧ j2 - (i + 1) < xs.length) by omega),
              if_pos (show i ≤ j2 ∧ j2 - i < xs.length + 1 by omega),
              show j2 - i = 0 by omega, List.getD_cons_zero, if_pos hx, hj2]
            exact H0 i (le_refl i)
          · by_cases hj4 : j2 - i < xs.length + 1
            · rw [if_pos (show i + 1 ≤ j2 ∧ j2 - (i + 1) < xs.length by omega),
                if_pos (show i ≤ j2 ∧ j2 - i < xs.length + 1 by omega),
                show j2 - i = (j2 - (i + 1)) + 1 by omega, List.getD_cons_succ]
            · rw [if_neg (show ¬(i + 1 ≤ j2 ∧ j2 - (i + 1) < xs.length) by omega),
                if_neg (show ¬(i ≤ j2 ∧ j2 - i < xs.length + 1) by omega)]
      cases p with
      | false =>
        simp only [trimGo, if_pos hx, Bool.false_eq_true, if_false]
        exact step i (fun _ k hk1 hk2 => H0 k (by omega)) j
      | true =>
        simp only [trimGo, if_pos hx, if_pos rfl]
        refine step ps (fun _ k hk1 hk2 => ?_) j
        by_cases hki : k < i
        · exact Hrun rfl k hk1 hki
        · rw [show k = i by omega]
          exact H0 i (le_refl i)
    · -- non-silent frame: optional flush of the closing run, then the write
      have hi_lt : i < out.length := by omega
      have main : ∀ out2 : List ℚ,
          (∀ k, out2.getD k 0 = (out.set i x).getD k 0) →
          out2.length = out.length →
          ∀ j2, (trimGo sampleRate xs (i + 1) false ps out2).getD j2 0 =
            if i ≤ j2 ∧ j2 - i < xs.length + 1 then
              (if |(x :: xs).getD (j2 - i) 0| < 1 / 100 then 0
               else (x :: xs).getD (j2 - i) 0)
            else out.getD j2 0 := by
        intro out2 hpt hlen2 j2
        have H02 : ∀ k, i + 1 ≤ k → out2.getD k 0 = 0 := by
          intro k hk
          rw [hpt k, getD_set_ne _ _ _ _ (by omega)]
          exact H0 k (by omega)
        rw [ih (i + 1) ps false out2 H02
          (fun h => absurd h Bool.false_ne_true) (by omega) j2]
        by_cases hj1 : j2 < i
        · rw [if_neg (show ¬(i + 1 ≤ j2 ∧ j2 - (i + 1) < xs.length) by omega),
            if_neg (show ¬(i ≤ j2 ∧ j2 - i < xs.length + 1) by omega), hpt j2,
            getD_set_ne _ _ _ _ (by omega)]
        · by_cases hj2 : j2 = i
          · rw [if_neg (show ¬(i + 1 ≤ j2 ∧ j2 - (i + 1) < xs.length) by omega),
              if_pos (show i ≤ j2 ∧ j2 - i < xs.length + 1 by omega),
              show j2 - i = 0 by omega, List.getD_cons_zero, if_neg hx, hpt j2,
              hj2, getD_set_self _ _ _ hi_lt]
          · by_cases hj4 : j2 - i < xs.length + 1
            · rw [if_pos (show i + 1 ≤ j2 ∧ j2 - (i + 1) < xs.length by omega),
                if_pos (show i ≤ j2 ∧ j2 - i < xs.length + 1 by omega),
                show j2 - i = (j2 - (i + 1)) + 1 by omega, List.getD_cons_succ]
            · rw [if_neg (show ¬(i + 1 ≤ j2 ∧ j2 - (i + 1) < xs.length) by omega),
                if_neg (show ¬(i ≤ j2 ∧ j2 - i < xs.length + 1) by omega), hpt j2,
                getD_set_ne _ _ _ _ (by omega)]
      cases p with
      | false =>
        simp only [trimGo, if_neg hx, Bool.false_eq_true, false_and, if_false]
        exact main (out.set i x) (fun k => rfl) (by simp) j
      | true =>
        simp only [trimGo, if_neg hx]
        split
        · refine main ((zeroRange out ps (i - ps)).set i x) (fun k => ?_)
            (by simp [zeroRange_length]) j
          by_cases hk : k = i
          · rw [hk, getD_set_self _ _ _ (by rw [zeroRange_length]; exact hi_lt),
              getD_set_self _ _ _ hi_lt]
          · rw [getD_set_ne _ _ _ _ (fun h => hk h.symm),
              getD_set_ne _ _ _ _ (fun h => hk h.symm), zeroRange_getD]
            by_cases hk2 : ps ≤ k ∧ k < ps + (i - ps)
            · rw [if_pos hk2]
              exact (Hrun rfl k hk2.1 (by omega)).symm
            · rw [if_neg hk2]
        · exact main (out.set i x) (fun k => rfl) (by simp) j

/-- The branch structure before the trim loop never changes the fresh
zero channel: the filter-speech branch returns `outputData` untouched. -/
theorem pre_trim_output (config : TransformConfig) (inputData : List ℚ) :
    (if config.filterSpeech then
        filterSpeechBranch inputData (List.replicate inputData.length (0 : ℚ))
      else List.replicate inputData.length (0 : ℚ)) =
      List.replicate inputData.length (0 : ℚ) := by
  cases config.filterSpeech <;> rfl

/-- A processed channel has the length of its input channel. -/
theorem processChannel_length (config : TransformConfig) (sampleRate : ℕ)
    (inputData : List ℚ) :
    (processChannel config sampleRate inputData).length = inputData.length := by
  simp only [processChannel]
  rw [pre_trim_output]
  split
  · rw [trimGo_length]
    exact List.length_replicate _ _
  · exact List.length_replicate _ _

/-- Pointwise characterisation of one processed channel: with trimming on,
a non-silent sample is copied through and everything else reads 0; with
trimming off every sample reads 0. -/
theorem processChannel_getD (config : TransformConfig) (sampleRate : ℕ)
    (inputData : List ℚ) (j : ℕ) :
    (processChannel config sampleRate inputData).getD j 0 =
      if config.trimPauses = true ∧ j < inputData.length ∧
          ¬(|inputData.getD j 0| < 1 / 100) then inputData.getD j 0 else 0 := by
  simp only [processChannel]
  rw [pre_trim_output]
  by_cases htp : config.trimPauses = true
  · rw [htp, if_pos rfl,
      trimGo_getD sampleRate inputData 0 0 false
        (List.replicate inputData.length 0)
        (fun k _ => getD_replicate_zero _ _)
        (fun h => absurd h Bool.false_ne_true)
        (by rw [List.length_replicate]; omega) j]
    by_cases hj : j < inputData.length
    · by_cases hs : |inputData.getD j 0| < 1 / 100
      · rw [if_pos (show 0 ≤ j ∧ j - 0 < inputData.length by omega),
          show j - 0 = j by omega, if_pos hs,
          if_neg (show ¬(true = true ∧ j < inputData.length ∧
            ¬(|inputData.getD j 0| < 1 / 100)) from fun h => h.2.2 hs)]
      · rw [if_pos (show 0 ≤ j ∧ j - 0 < inputData.length by omega),
          show j - 0 = j by omega, if_neg hs,
          if_pos (show true = true ∧ j < inputData.length ∧
            ¬(|inputData.getD j 0| < 1 / 100) from ⟨rfl, hj, hs⟩)]
    · rw [if_neg (show ¬(0 ≤ j ∧ j - 0 < inputData.length) by omega),
        if_neg (show ¬(true = true ∧ j < inputData.length ∧
          ¬(|inputData.getD j 0| < 1 / 100)) from fun h => hj h.2.1),
        getD_replicate_zero]
  · have htf : config.trimPauses = false := by
      revert htp; cases config.trimPauses <;> simp
    rw [htf, if_neg Bool.false_ne_true,
      if_neg (fun h => Bool.false_ne_true h.1), getD_replicate_zero]

/-- An empty channel is processed to an empty channel. -/
theorem processChannel_nil (config : TransformConfig) (sampleRate : ℕ) :
    processChannel config sampleRate [] = [] := by
  cases hf : config.filterSpeech <;> cases ht : config.trimPauses <;>
    simp [processChannel, filterSpeechBranch, offlineRender, hf, ht, trimGo]

/-- Reading channel `c` of a mapped channel list, for maps that send the
empty channel to itself. -/
theorem getD_map_channels (f : List ℚ → List ℚ) (hf : f [] = [])
    (l : List (List ℚ)) : ∀ c : ℕ, (l.map f).getD c [] = f (l.getD c []) := by
  induction l with
  | nil => intro c; simp [hf]
  | cons a as ih =>
    intro c
    cases c with
    | zero => simp
    | succ m => simpa using ih m

/-- C2: for every decoded buffer and transform configuration, the processed
buffer is fully characterised per channel `c` and frame `j`: the sample is
`input[j]` when `trimPauses` is enabled and `|input[j]| ≥ 0.01`, and `0`
otherwise — in particular, with `trimPauses` disabled every processed
sample is 0, since the output is created zero-initialised and the
filter-speech branch never writes into it. -/
theorem processAudio_pointwise (config : TransformConfig)
    (audioBuffer : AudioBuffer) (c j : ℕ)
    (hc : c < audioBuffer.numberOfChannels)
    (hj : j < (audioBuffer.channels.getD c []).length) :
    ((processAudio config audioBuffer).channels.getD c []).getD j 0 =
      if config.trimPauses = true ∧
          1 / 100 ≤ |(audioBuffer.channels.getD c []).getD j 0| then
        (audioBuffer.channels.getD c []).getD j 0
      else 0 := by
  have hcc := hc
  simp only [processAudio]
  rw [getD_map_channels _ (processChannel_nil config audioBuffer.sampleRate)
    audioBuffer.channels c, processChannel_getD]
  by_cases ht : config.trimPauses = true
  · by_cases hs : |(audioBuffer.channels.getD c []).getD j 0| < 1 / 100
    · rw [if_neg (show ¬(config.trimPauses = true ∧
          j < (audioBuffer.channels.getD c []).length ∧
          ¬(|(audioBuffer.channels.getD c []).getD j 0| < 1 / 100))
          from fun h => h.2.2 hs),
        if_neg (show ¬(config.trimPauses = true ∧
          1 / 100 ≤ |(audioBuffer.channels.getD c []).getD j 0|)
          from fun h => absurd h.2 (not_le.mpr hs))]
    · rw [if_pos (show config.trimPauses = true ∧
          j < (audioBuffer.channels.getD c []).length ∧
          ¬(|(audioBuffer.channels.getD c []).getD j 0| < 1 / 100)
          from ⟨ht, hj, hs⟩),
        if_pos (show config.trimPauses = true ∧
          1 / 100 ≤ |(audioBuffer.channels.getD c []).getD j 0|
          from ⟨ht, not_lt.mp hs⟩)]
  · rw [if_neg (show ¬(config.trimPauses = true ∧
        j < (audioBuffer.channels.getD c []).length ∧
        ¬(|(audioBuffer.channels.getD c []).getD j 0| < 1 / 100))
        from fun h => ht h.1),
      if_neg (show ¬(config.trimPauses = true ∧
        1 / 100 ≤ |(audioBuffer.channels.getD c []).getD j 0|)
        from fun h => ht h.1)]

/-- Witness for C2 at a concrete input: one stereo-less channel `[1/2]`
at 3 Hz with trimming on; the loud sample is copied through. -/
theorem processAudio_pointwise_witness :
    0 < (AudioBuffer.mk 3 [[(1 : ℚ)/2]]).numberOfChannels ∧
    ((processAudio (TransformConfig.mk false true)
        (AudioBuffer.mk 3 [[(1 : ℚ)/2]])).channels.getD 0 []).getD 0 0 =
      1 / 2 := by
  refine ⟨by norm_num [AudioBuffer.numberOfChannels], ?_⟩
  rw [processAudio_pointwise (TransformConfig.mk false true)
    (AudioBuffer.mk 3 [[(1 : ℚ)/2]]) 0 0
    (by norm_num [AudioBuffer.numberOfChannels]) (by norm_num)]
  norm_num [abs_of_pos]

/-- C10: the processed buffer has exactly the decoded buffer's sample
rate, channel count and frame count, and every individual channel keeps
its length — neither transform changes the buffer's dimensions. -/
theorem processAudio_preserves_dimensions (config : TransformConfig)
    (audioBuffer : AudioBuffer) :
    (processAudio config audioBuffer).sampleRate = audioBuffer.sampleRate ∧
    (processAudio config audioBuffer).numberOfChannels =
      audioBuffer.numberOfChannels ∧
    (processAudio config audioBuffer).frameCount = audioBuffer.frameCount ∧
    ∀ c : ℕ, ((processAudio config audioBuffer).channels.getD c []).length =
      (audioBuffer.channels.getD c []).length := by
  obtain ⟨sampleRate, chs⟩ := audioBuffer
  refine ⟨rfl, ?_, ?_, ?_⟩
  · simp [processAudio, AudioBuffer.numberOfChannels]
  · simp only [processAudio, AudioBuffer.frameCount]
    cases chs with
    | nil => rfl
    | cons ch rest => simp [processChannel_length]
  · intro c
    simp only [processAudio]
    rw [getD_map_channels _ (processChannel_nil _ _) _ c, processChannel_length]

/-- C5: with trimming enabled, any silent run (`|sample| < 0.01`) that is
closed by a non-silent frame before the end of the buffer and whose length
strictly exceeds `0.5 × sampleRate` frames reads exactly 0 in the output
at every one of its indices. -/
theorem long_closed_silent_run_zeroed (config : TransformConfig)
    (audioBuffer : AudioBuffer) (c a b j : ℕ)
    (htrim : config.trimPauses = true)
    (hchan : c < audioBuffer.numberOfChannels)
    (hrun : ∀ k, a ≤ k → k < b →
      |(audioBuffer.channels.getD c []).getD k 0| < 1 / 100)
    (hterm : b < (audioBuffer.channels.getD c []).length)
    (hloud : 1 / 100 ≤ |(audioBuffer.channels.getD c []).getD b 0|)
    (hlong : ((b : ℚ) - (a : ℚ)) >
      ((audioBuffer.sampleRate : ℕ) : ℚ) * (1 / 2))
    (hj1 : a ≤ j) (hj2 : j < b) :
    ((processAudio config audioBuffer).channels.getD c []).getD j 0 = 0 := by
  have hd := hterm
  simp only [processAudio]
  rw [getD_map_channels _ (processChannel_nil config audioBuffer.sampleRate)
    audioBuffer.channels c, processChannel_getD]
  rw [if_neg (show ¬(config.trimPauses = true ∧
    j < (audioBuffer.channels.getD c []).length ∧
    ¬(|(audioBuffer.channels.getD c []).getD j 0| < 1 / 100))
    from fun h => h.2.2 (hrun j hj1 hj2))]

/-- Witness for C5: at 2 Hz the minimum pause is 1 frame, so the 2-frame
quiet run in `[1/200, 1/200, 9/10]` is closed by the loud frame and is
zeroed. -/
theorem long_closed_silent_run_zeroed_witness :
    ((2 : ℚ) - (0 : ℚ) > (((2 : ℕ) : ℕ) : ℚ) * (1 / 2)) ∧
    ((processAudio (TransformConfig.mk false true)
        (AudioBuffer.mk 2 [[1/200, 1/200, 9/10]])).channels.getD 0 []).getD
      1 0 = 0 :=
  ⟨by norm_num,
    long_closed_silent_run_zeroed (TransformConfig.mk false true)
      (AudioBuffer.mk 2 [[1/200, 1/200, 9/10]]) 0 0 2 1 rfl
      (by norm_num [AudioBuffer.numberOfChannels])
      (by
        intro k hk1 hk2
        interval_cases k <;> norm_num [abs_of_pos])
      (by norm_num) (by norm_num [abs_of_pos]) (by norm_num)
      (by omega) (by omega)⟩

/-- C4's failing input evaluated on the code: at 44100 Hz the 2-frame
quiet run of amplitude `1/200` is far below the 22050-frame minimum pause,
yet the processed output reads 0 there, not the original `1/200`. -/
theorem short_quiet_run_zeroed_by_code :
    ((processAudio (TransformConfig.mk false true)
        (AudioBuffer.mk 44100 [[1/200, 1/200, 9/10]])).channels.getD
      0 []).getD 0 0 = 0 ∧ (1 / 200 : ℚ) ≠ 0 := by
  refine ⟨?_, by norm_num⟩
  simp only [processAudio]
  rw [getD_map_channels _ (processChannel_nil _ _) _ 0, processChannel_getD]
  norm_num [abs_of_pos]

/-- C6's failing input evaluated on the code: the buffer ends in a quiet
trailing run (`1/200`), and the processed output reads 0 there instead of
keeping the original value. -/
theorem trailing_silent_run_zeroed_by_code :
    ((processAudio (TransformConfig.mk false true)
        (AudioBuffer.mk 44100 [[9/10, 1/200]])).channels.getD 0 []).getD
      1 0 = 0 ∧ (1 / 200 : ℚ) ≠ 0 := by
  refine ⟨?_, by norm_num⟩
  simp only [processAudio]
  rw [getD_map_channels _ (processChannel_nil _ _) _ 0, processChannel_getD]
  norm_num [abs_of_pos]

/-- C7's failing input evaluated on the code: with `filterSpeech` enabled
and `trimPauses` disabled, a unit impulse comes out as the all-zero
buffer — the band-pass filter's output never reaches the processed
buffer. -/
theorem filter_speech_output_is_zero :
    processAudio (TransformConfig.mk true false)
        (AudioBuffer.mk 44100 [[1, 0, 0, 0]]) =
      AudioBuffer.mk 44100 [[0, 0, 0, 0]] ∧ (1 : ℚ) ≠ 0 :=
  ⟨rfl, by norm_num⟩

/-- C1 counterexample: `score(44100, 192, 2)` is not 100 — 44100 Hz lies
far above the `[500, 8000]` sample-rate window, so the frequency sub-score
is `50 × 8000 / 44100 ≈ 9.07`, not 50. -/
theorem qualityScore_44100_192_2_ne_100 :
    calculateQualityScore 44100 192 2 ≠ 100 := by
  unfold calculateQualityScore
  norm_num [round_eq]

/-- C1 amended: `score(44100, 192, 2) = 59` — the sub-scores are
`50 × 8000 / 44100 ≈ 9.07`, 30 (192 kbps in window) and 20 (stereo), and
`round(59.07…) = 59`. -/
theorem qualityScore_44100_192_2_eq_59 :
    calculateQualityScore 44100 192 2 = 59 := by
  unfold calculateQualityScore
  norm_num [round_eq]

/-- Both forms of a window sub-score agree: the code writes
`x / lo * cap` and `hi / x * cap`, the spec `cap * x / lo` and
`cap * hi / x`. -/
theorem windowScore_eq (x lo hi cap : ℚ) :
    (if lo ≤ x ∧ x ≤ hi then cap
     else if x < lo then x / lo * cap else hi / x * cap) =
    (if lo ≤ x ∧ x ≤ hi then cap
     else if x < lo then cap * x / lo else cap * hi / x) := by
  split_ifs <;> ring

/-- A window sub-score is non-negative for positive input. -/
theorem windowScore_nonneg (x lo hi cap : ℚ) (hx : 0 < x) (hlo : 0 < lo)
    (hhi : 0 ≤ hi) (hcap : 0 ≤ cap) :
    0 ≤ if lo ≤ x ∧ x ≤ hi then cap
        else if x < lo then x / lo * cap else hi / x * cap := by
  split_ifs
  · exact hcap
  · positivity
  · positivity

/-- A window sub-score never exceeds its cap. -/
theorem windowScore_le_cap (x lo hi cap : ℚ) (hx : 0 < x) (hlo : 0 < lo)
    (hcap : 0 ≤ cap) :
    (if lo ≤ x ∧ x ≤ hi then cap
     else if x < lo then x / lo * cap else hi / x * cap) ≤ cap := by
  split_ifs with h1 h2
  · exact le_refl cap
  · have h3 : x / lo ≤ 1 := by
      rw [div_le_one hlo]
      exact le_of_lt h2
    calc x / lo * cap ≤ 1 * cap := mul_le_mul_of_nonneg_right h3 hcap
      _ = cap := one_mul cap
  · have hhx : hi < x := by
      by_contra hcon
      push_neg at hcon
      exact h1 ⟨le_of_not_lt h2, hcon⟩
    have h3 : hi / x ≤ 1 := by
      rw [div_le_one hx]
      exact le_of_lt hhx
    calc hi / x * cap ≤ 1 * cap := mul_le_mul_of_nonneg_right h3 hcap
      _ = cap := one_mul cap

/-- C3: for every `sampleRate > 0`, `bitrate > 0` and channel count, the
engine returns exactly the spec's `round(min(100, F + B + C))`, and the
result always lies in `[0, 100]`. -/
theorem calculateQualityScore_matches_spec (sampleRate bitrate : ℚ)
    (channels : ℕ) (hsr : 0 < sampleRate) (hbr : 0 < bitrate) :
    calculateQualityScore sampleRate bitrate channels =
      specQualityScore sampleRate bitrate channels ∧
    0 ≤ calculateQualityScore sampleRate bitrate channels ∧
    calculateQualityScore sampleRate bitrate channels ≤ 100 := by
  have e1 : (250 : ℚ) * 2 = 500 := by norm_num
  have e2 : (4000 : ℚ) * 2 = 8000 := by norm_num
  simp only [calculateQualityScore, specQualityScore, e1, e2]
  rw [← windowScore_eq sampleRate 500 8000 50, ← windowScore_eq bitrate 128 320 30]
  set F : ℚ := if 500 ≤ sampleRate ∧ sampleRate ≤ 8000 then 50
    else if sampleRate < 500 then sampleRate / 500 * 50
    else 8000 / sampleRate * 50 with hF
  set B : ℚ := if 128 ≤ bitrate ∧ bitrate ≤ 320 then 30
    else if bitrate < 128 then bitrate / 128 * 30
    else 320 / bitrate * 30 with hB
  set C : ℚ := if channels = 2 then (20 : ℚ)
    else if channels = 1 then 10 else 0 with hC
  have hF0 : 0 ≤ F := windowScore_nonneg sampleRate 500 8000 50 hsr
    (by norm_num) (by norm_num) (by norm_num)
  have hF1 : F ≤ 50 := windowScore_le_cap sampleRate 500 8000 50 hsr
    (by norm_num) (by norm_num)
  have hB0 : 0 ≤ B := windowScore_nonneg bitrate 128 320 30 hbr
    (by norm_num) (by norm_num) (by norm_num)
  have hB1 : B ≤ 30 := windowScore_le_cap bitrate 128 320 30 hbr
    (by norm_num) (by norm_num)
  have hC0 : 0 ≤ C := by rw [hC]; split_ifs <;> norm_num
  have hC1 : C ≤ 20 := by rw [hC]; split_ifs <;> norm_num
  have hsum100 : F + B + C ≤ 100 := by linarith
  have hr100 : round (F + B + C) ≤ 100 := by
    rw [round_eq]
    calc ⌊F + B + C + 1 / 2⌋ ≤ ⌊(100 : ℚ) + 1 / 2⌋ :=
          Int.floor_le_floor (by linarith)
      _ = 100 := by norm_num
  have hr0 : 0 ≤ round (F + B + C) := by
    rw [round_eq]
    calc (0 : ℤ) = ⌊(0 : ℚ) + 1 / 2⌋ := by norm_num
      _ ≤ ⌊F + B + C + 1 / 2⌋ := Int.floor_le_floor (by linarith)
  refine ⟨?_, le_min (by norm_num) hr0, min_le_left _ _⟩
  rw [min_eq_right hsum100, min_eq_right hr100]

/-- Witness for C3 at the concrete input (44100, 192, 2). -/
theorem calculateQualityScore_matches_spec_witness :
    (0 : ℚ) < 44100 ∧
    (calculateQualityScore 44100 192 2 = specQualityScore 44100 192 2 ∧
     0 ≤ calculateQualityScore 44100 192 2 ∧
     calculateQualityScore 44100 192 2 ≤ 100) :=
  ⟨by norm_num,
    calculateQualityScore_matches_spec 44100 192 2 (by norm_num) (by norm_num)⟩

/-! ## Byte-level lemmas for the WAV encoder -/

/-- Reading after `drop` shifts the index. -/
theorem getD_drop {α : Type} (l : List α) (d : α) :
    ∀ (n k : ℕ), (l.drop n).getD k d = l.getD (n + k) d := by
  induction l with
  | nil => intro n k; simp
  | cons a as ih =>
    intro n k
    cases n with
    | zero => simp
    | succ m =>
      rw [List.drop_succ_cons, ih m k,
        show m + 1 + k = (m + k) + 1 by omega, List.getD_cons_succ]

/-- Reading past the first part of an append lands in the second part. -/
theorem getD_append_ge {α : Type} (l1 l2 : List α) (d : α) :
    ∀ k : ℕ, l1.length ≤ k → (l1 ++ l2).getD k d = l2.getD (k - l1.length) d := by
  induction l1 with
  | nil => intro k hk; simp
  | cons a as ih =>
    intro k hk
    simp only [List.length_cons] at hk
    rw [List.cons_append,
      show k = (k - 1) + 1 by omega, List.getD_cons_succ, ih (k - 1) (by omega)]
    simp only [List.length_cons]
    rw [show k - 1 + 1 - (as.length + 1) = k - 1 - as.length from by omega]

/-- Any index of an all-zero byte list reads 0. -/
theorem getD_replicate_zero_nat (n j : ℕ) :
    (List.replicate n (0 : ℕ)).getD j 0 = 0 := by
  induction n generalizing j with
  | zero => simp
  | succ m ih =>
    cases j with
    | zero => simp [List.replicate]
    | succ k => simp [List.replicate, ih k]

/-- Little-endian read-back of four stored `setUint32` bytes. -/
theorem readUint32_value (n : ℕ) (rest : List ℕ) (h : n < 4294967296) :
    readUint32LE (uint32Bytes n ++ rest) 0 = n := by
  have hsplit : readUint32LE (uint32Bytes n ++ rest) 0 =
      n % 4294967296 % 256 + 256 * (n % 4294967296 / 256 % 256) +
      65536 * (n % 4294967296 / 65536 % 256) +
      16777216 * (n % 4294967296 / 16777216) := rfl
  rw [hsplit]
  omega

/-- Little-endian read-back of two stored `setUint16` bytes. -/
theorem readUint16_value (n : ℕ) (rest : List ℕ) (h : n < 65536) :
    readUint16LE (uint16Bytes n ++ rest) 0 = n := by
  have hsplit : readUint16LE (uint16Bytes n ++ rest) 0 =
      n % 65536 % 256 + 256 * (n % 65536 / 256) := rfl
  rw [hsplit]
  omega

/-- The encoded sample stream contributes two bytes per frame. -/
theorem sample_stream_length (l : List ℚ) :
    ((l.map sampleToBytes).flatten).length = 2 * l.length := by
  induction l with
  | nil => rfl
  | cons a as ih =>
    simp only [List.map_cons, List.flatten_cons, List.length_append, ih,
      sampleToBytes, int16Bytes, uint16Bytes, List.length_cons,
      List.length_nil, List.length_cons]
    omega

/-- The header is 44 bytes long. -/
theorem wavHeader_length (numChannels sampleRate frameCount : ℕ) :
    (wavHeader numChannels sampleRate frameCount).length = 44 := rfl

/-- Indexing into the flattened two-byte sample stream: frame `i`
contributes bytes `2*i` and `2*i + 1`. -/
theorem sample_stream_getD (l : List ℚ) :
    ∀ (rest : List ℕ) (i : ℕ), i < l.length →
    ((l.map sampleToBytes).flatten ++ rest).getD (2 * i) 0 =
      ((jsTrunc (max (-1) (min 1 (l.getD i 0)) * 32767)) % 65536).toNat %
        65536 % 256 ∧
    ((l.map sampleToBytes).flatten ++ rest).getD (2 * i + 1) 0 =
      ((jsTrunc (max (-1) (min 1 (l.getD i 0)) * 32767)) % 65536).toNat %
        65536 / 256 := by
  induction l with
  | nil =>
    intro rest i hi
    simp at hi
  | cons a as ih =>
    intro rest i hi
    cases i with
    | zero => exact ⟨rfl, rfl⟩
    | succ m =>
      have hm : m < as.length := by
        simp only [List.length_cons] at hi
        omega
      have key := ih rest m hm
      constructor
      · have lhs_eq :
            (((a :: as).map sampleToBytes).flatten ++ rest).getD
              (2 * (m + 1)) 0 =
            ((as.map sampleToBytes).flatten ++ rest).getD (2 * m) 0 := by
          simp only [List.map_cons, List.flatten_cons, List.append_assoc,
            sampleToBytes, int16Bytes, uint16Bytes, List.cons_append,
            List.nil_append]
          rw [show 2 * (m + 1) = ((2 * m) + 1) + 1 by omega,
            List.getD_cons_succ, List.getD_cons_succ]
        rw [lhs_eq, key.1, List.getD_cons_succ]
      · have lhs_eq :
            (((a :: as).map sampleToBytes).flatten ++ rest).getD
              (2 * (m + 1) + 1) 0 =
            ((as.map sampleToBytes).flatten ++ rest).getD (2 * m + 1) 0 := by
          simp only [List.map_cons, List.flatten_cons, List.append_assoc,
            sampleToBytes, int16Bytes, uint16Bytes, List.cons_append,
            List.nil_append]
          rw [show 2 * (m + 1) + 1 = ((2 * m + 1) + 1) + 1 by omega,
            List.getD_cons_succ, List.getD_cons_succ]
        rw [lhs_eq, key.2, List.getD_cons_succ]

/-- C8: for a buffer with at least one channel, the encoder writes only
channel 0 into the data section: frame `i`'s clamped, scaled and truncated
16-bit value sits (little-endian, two's complement) at byte offset
`44 + 2*i`, and every data byte past `44 + 2*frameCount` reads 0. -/
theorem bufferToWav_data_section (buffer : AudioBuffer)
    (hC : 1 ≤ buffer.numberOfChannels) :
    (∀ i : ℕ, i < (buffer.channels.headD []).length →
      readUint16LE (bufferToWav buffer) (44 + 2 * i) =
        ((jsTrunc (max (-1) (min 1 ((buffer.channels.headD []).getD i 0)) *
          32767)) % 65536).toNat) ∧
    (∀ k : ℕ, 44 + 2 * (buffer.channels.headD []).length ≤ k →
      (bufferToWav buffer).getD k 0 = 0) := by
  have hCC := hC
  have hdrop : (bufferToWav buffer).drop 44 =
      ((buffer.channels.headD []).map sampleToBytes).flatten ++
      List.replicate (buffer.frameCount * (buffer.numberOfChannels * 2) -
        2 * (buffer.channels.headD []).length) 0 := rfl
  constructor
  · intro i hi
    have e0 := getD_drop (bufferToWav buffer) 0 44 (2 * i)
    have e1 := getD_drop (bufferToWav buffer) 0 44 (2 * i + 1)
    rw [hdrop] at e0 e1
    have hu0 : (0 : ℤ) ≤ jsTrunc (max (-1)
        (min 1 ((buffer.channels.headD []).getD i 0)) * 32767) % 65536 :=
      Int.emod_nonneg _ (by norm_num)
    have hu1 : jsTrunc (max (-1)
        (min 1 ((buffer.channels.headD []).getD i 0)) * 32767) % 65536 <
        65536 := Int.emod_lt_of_pos _ (by norm_num)
    have hpair := sample_stream_getD (buffer.channels.headD [])
      (List.replicate (buffer.frameCount * (buffer.numberOfChannels * 2) -
        2 * (buffer.channels.headD []).length) 0) i hi
    simp only [readUint16LE]
    rw [show 44 + 2 * i + 1 = 44 + (2 * i + 1) by omega, ← e0, ← e1,
      hpair.1, hpair.2]
    omega
  · intro k hk
    have e := getD_drop (bufferToWav buffer) 0 44 (k - 44)
    rw [show 44 + (k - 44) = k by omega] at e
    rw [← e, hdrop,
      getD_append_ge _ _ _ _ (by rw [sample_stream_length]; omega),
      getD_replicate_zero_nat]

/-- Witness for C8: one channel `[1/2]` at 8 Hz; the stored sample is
`trunc(0.5 × 32767) = 16383` at offset 44, and the byte at offset 46
(past the written frames) is 0. -/
theorem bufferToWav_data_section_witness :
    1 ≤ (AudioBuffer.mk 8 [[(1 : ℚ)/2]]).numberOfChannels ∧
    readUint16LE (bufferToWav (AudioBuffer.mk 8 [[(1 : ℚ)/2]]))
      (44 + 2 * 0) = 16383 ∧
    (bufferToWav (AudioBuffer.mk 8 [[(1 : ℚ)/2]])).getD 46 0 = 0 := by
  refine ⟨by norm_num [AudioBuffer.numberOfChannels], ?_, ?_⟩
  · rw [(bufferToWav_data_section (AudioBuffer.mk 8 [[(1 : ℚ)/2]])
      (by norm_num [AudioBuffer.numberOfChannels])).1 0 (by norm_num)]
    norm_num [jsTrunc]
    decide
  · exact (bufferToWav_data_section (AudioBuffer.mk 8 [[(1 : ℚ)/2]])
      (by norm_num [AudioBuffer.numberOfChannels])).2 46 (by norm_num)

/-- A four-byte little-endian field reads back to its unwrapped value. -/
theorem u32_readback (n : ℕ) (h : n < 4294967296) (l : List ℕ) (off : ℕ)
    (hsplit : readUint32LE l off =
      n % 4294967296 % 256 + 256 * (n % 4294967296 / 256 % 256) +
      65536 * (n % 4294967296 / 65536 % 256) +
      16777216 * (n % 4294967296 / 16777216)) :
    readUint32LE l off = n := by
  rw [hsplit]
  omega

/-- A two-byte little-endian field reads back to its unwrapped value. -/
theorem u16_readback (n : ℕ) (h : n < 65536) (l : List ℕ) (off : ℕ)
    (hsplit : readUint16LE l off = n % 65536 % 256 + 256 * (n % 65536 / 256)) :
    readUint16LE l off = n := by
  rw [hsplit]
  omega

set_option maxHeartbeats 1600000 in
/-- C9: the encoder emits a 44-byte little-endian RIFF/WAVE header with
exactly the specified fields, the total output is `44 + N·C·2` bytes, and
parsing the header back yields the sample rate, 16 bits per sample and
`dataBytes = N·C·2` (under the in-range side conditions the 16/32-bit
fields need). -/
theorem bufferToWav_header_fields (buffer : AudioBuffer)
    (hC : 1 ≤ buffer.numberOfChannels)
    (h16 : buffer.numberOfChannels * 2 < 65536)
    (h32a : buffer.sampleRate * (buffer.numberOfChannels * 2) < 4294967296)
    (h32b : 36 + buffer.frameCount * buffer.numberOfChannels * 2 <
      4294967296) :
    (bufferToWav buffer).length =
      44 + buffer.frameCount * buffer.numberOfChannels * 2 ∧
    (bufferToWav buffer).take 4 = [82, 73, 70, 70] ∧
    readUint32LE (bufferToWav buffer) 4 =
      36 + buffer.frameCount * buffer.numberOfChannels * 2 ∧
    ((bufferToWav buffer).drop 8).take 4 = [87, 65, 86, 69] ∧
    ((bufferToWav buffer).drop 12).take 4 = [102, 109, 116, 32] ∧
    readUint32LE (bufferToWav buffer) 16 = 16 ∧
    readUint16LE (bufferToWav buffer) 20 = 1 ∧
    readUint16LE (bufferToWav buffer) 22 = buffer.numberOfChannels ∧
    readUint32LE (bufferToWav buffer) 24 = buffer.sampleRate ∧
    readUint32LE (bufferToWav buffer) 28 =
      buffer.sampleRate * (buffer.numberOfChannels * 2) ∧
    readUint16LE (bufferToWav buffer) 32 = buffer.numberOfChannels * 2 ∧
    readUint16LE (bufferToWav buffer) 34 = 16 ∧
    ((bufferToWav buffer).drop 36).take 4 = [100, 97, 116, 97] ∧
    readUint32LE (bufferToWav buffer) 40 =
      buffer.frameCount * buffer.numberOfChannels * 2 := by
  have h32b2 : 36 + buffer.frameCount * (buffer.numberOfChannels * 2) <
      4294967296 := by
    rw [← Nat.mul_assoc]
    exact h32b
  have hR : buffer.sampleRate < 4294967296 :=
    lt_of_le_of_lt
      (Nat.le_mul_of_pos_right buffer.sampleRate (by omega)) h32a
  have hCn : buffer.numberOfChannels < 65536 := by omega
  have hDB : buffer.frameCount * (buffer.numberOfChannels * 2) <
      4294967296 := by omega
  refine ⟨?_, rfl, ?_, rfl, rfl, rfl, rfl, ?_, ?_, ?_, ?_, rfl, rfl, ?_⟩
  · have h2 : buffer.frameCount = (buffer.channels.headD []).length := rfl
    have e1 : buffer.frameCount * (buffer.numberOfChannels * 2) =
        buffer.frameCount * buffer.numberOfChannels * 2 := by ring
    have e2 : 2 * (buffer.channels.headD []).length ≤
        buffer.frameCount * buffer.numberOfChannels * 2 := by
      have h1 : buffer.frameCount ≤
          buffer.frameCount * buffer.numberOfChannels :=
        Nat.le_mul_of_pos_right _ hC
      omega
    simp only [bufferToWav, List.length_append, wavHeader_length,
      sample_stream_length, List.length_replicate]
    omega
  · rw [Nat.mul_assoc]
    exact u32_readback _ h32b2 _ _ rfl
  · exact u16_readback _ hCn _ _ rfl
  · exact u32_readback _ hR _ _ rfl
  · exact u32_readback _ h32a _ _ rfl
  · exact u16_readback _ h16 _ _ rfl
  · rw [Nat.mul_assoc]
    exact u32_readback _ hDB _ _ rfl

/-- Witness for C9: a 1-frame stereo buffer at 44100 Hz; the header reads
back the sample rate and the file is 48 bytes. -/
theorem bufferToWav_header_fields_witness :
    1 ≤ (AudioBuffer.mk 44100 [[(1 : ℚ)/2], [(1 : ℚ)/2]]).numberOfChannels ∧
    readUint32LE (bufferToWav
      (AudioBuffer.mk 44100 [[(1 : ℚ)/2], [(1 : ℚ)/2]])) 24 = 44100 ∧
    (bufferToWav (AudioBuffer.mk 44100 [[(1 : ℚ)/2], [(1 : ℚ)/2]])).length =
      48 := by
  have h := bufferToWav_header_fields
    (AudioBuffer.mk 44100 [[(1 : ℚ)/2], [(1 : ℚ)/2]])
    (by norm_num [AudioBuffer.numberOfChannels])
    (by norm_num [AudioBuffer.numberOfChannels])
    (by norm_num [AudioBuffer.numberOfChannels])
    (by norm_num [AudioBuffer.numberOfChannels, AudioBuffer.frameCount])
  refine ⟨by norm_num [AudioBuffer.numberOfChannels],
    h.2.2.2.2.2.2.2.2.1, ?_⟩
  rw [h.1]
  norm_num [AudioBuffer.numberOfChannels, AudioBuffer.frameCount]
